import Mathlib

/-!
Verification development for `src/server/python/video_processor.py`, the
documentary video processing module.  The Python functions relevant to the
specification are shallowly embedded as executable Lean definitions:

* durations and timestamps are modelled as rationals (`ℚ`),
* external collaborator invocations (ffmpeg / ffprobe / `cp`) are modelled by
  an oracle recording the success of each kind of invocation, and the
  functions additionally return a trace of the invocations they issue,
* fallible paths return `Bool` success flags exactly as the Python code does.
-/

namespace VideoProcessor

/-! ### Motion presets (`KEN_BURNS_PRESETS`, lines 22–108) -/

/-- A Ken Burns motion preset: start/end zoom factor and start/end pan anchor,
mirroring one value of the Python `KEN_BURNS_PRESETS` dict. -/
structure MotionPreset where
  start_zoom : ℚ
  end_zoom : ℚ
  start_x : ℚ
  end_x : ℚ
  start_y : ℚ
  end_y : ℚ
deriving DecidableEq, Repr

/-- The statically registered preset table, embedded from the
`KEN_BURNS_PRESETS` dict (association list in source order). -/
def KEN_BURNS_PRESETS : List (String × MotionPreset) :=
  [ ("zoom_in_center",      ⟨1, 6/5, 1/2, 1/2, 1/2, 1/2⟩),
    ("zoom_out_center",     ⟨5/4, 1, 1/2, 1/2, 1/2, 1/2⟩),
    ("pan_left_zoom",       ⟨23/20, 6/5, 13/20, 7/20, 1/2, 1/2⟩),
    ("pan_right_zoom",      ⟨23/20, 6/5, 7/20, 13/20, 1/2, 1/2⟩),
    ("pan_up_zoom",         ⟨23/20, 6/5, 1/2, 1/2, 3/5, 2/5⟩),
    ("pan_down_zoom",       ⟨23/20, 6/5, 1/2, 1/2, 2/5, 3/5⟩),
    ("diagonal_tl_br",      ⟨11/10, 5/4, 7/20, 13/20, 7/20, 13/20⟩),
    ("diagonal_tr_bl",      ⟨11/10, 5/4, 13/20, 7/20, 7/20, 13/20⟩),
    ("diagonal_bl_tr",      ⟨5/4, 11/10, 7/20, 13/20, 13/20, 7/20⟩),
    ("diagonal_br_tl",      ⟨5/4, 11/10, 13/20, 7/20, 13/20, 7/20⟩),
    ("focus_top_left",      ⟨1, 27/20, 1/2, 3/10, 1/2, 3/10⟩),
    ("focus_top_right",     ⟨1, 27/20, 1/2, 7/10, 1/2, 3/10⟩),
    ("focus_bottom_center", ⟨1, 13/10, 1/2, 1/2, 1/2, 7/10⟩),
    ("reveal_from_center",  ⟨7/5, 1, 1/2, 1/2, 1/2, 1/2⟩),
    ("reveal_from_left",    ⟨27/20, 1, 3/10, 1/2, 1/2, 1/2⟩),
    ("reveal_from_right",   ⟨27/20, 1, 7/10, 1/2, 1/2, 1/2⟩) ]

/-- Model of `KEN_BURNS_PRESETS.get(effect, KEN_BURNS_PRESETS["zoom_in_center"])` —
the lookup every selection path (`build_zoompan_filter`, line 980) goes
through: a registered name yields its preset, anything else the
`zoom_in_center` default. -/
def lookupPreset (effect : String) : MotionPreset :=
  (KEN_BURNS_PRESETS.lookup effect).getD ⟨1, 6/5, 1/2, 1/2, 1/2, 1/2⟩

/-- The bounds required of a preset: zoom factors at least 1 and pan anchors
inside `[0,1]`. -/
def presetBounded (p : MotionPreset) : Prop :=
  1 ≤ p.start_zoom ∧ 1 ≤ p.end_zoom ∧
  0 ≤ p.start_x ∧ p.start_x ≤ 1 ∧ 0 ≤ p.end_x ∧ p.end_x ≤ 1 ∧
  0 ≤ p.start_y ∧ p.start_y ≤ 1 ∧ 0 ≤ p.end_y ∧ p.end_y ≤ 1

instance (p : MotionPreset) : Decidable (presetBounded p) := by
  unfold presetBounded; infer_instance

/-! ### Effect sequences and selection (`EFFECT_SEQUENCES`,
`get_effect_for_scene`, lines 111–120) -/

/-- The three ordered effect sequences, embedded from `EFFECT_SEQUENCES`. -/
def EFFECT_SEQUENCES : List (List String) :=
  [ ["zoom_in_center", "pan_left_zoom", "diagonal_tl_br",
     "reveal_from_center", "pan_right_zoom", "focus_top_left"],
    ["pan_right_zoom", "zoom_out_center", "diagonal_br_tl",
     "pan_up_zoom", "focus_bottom_center", "reveal_from_right"],
    ["diagonal_bl_tr", "zoom_in_center", "pan_left_zoom",
     "reveal_from_left", "diagonal_tr_bl", "pan_down_zoom"] ]

/-- The registered preset ids — the keys of `KEN_BURNS_PRESETS`. -/
def registeredEffects : List String := KEN_BURNS_PRESETS.map Prod.fst

/-- Model of `get_effect_for_scene(scene_index, total_scenes)` (lines 117–120):
`sequence = EFFECT_SEQUENCES[scene_index % len(EFFECT_SEQUENCES)]` and then
`sequence[scene_index % len(sequence)]`.  Both indices are always in range,
so `List.getD` coincides with Python's indexing here. -/
def get_effect_for_scene (scene_index total_scenes : ℕ) : String :=
  let sequence := EFFECT_SEQUENCES.getD (scene_index % EFFECT_SEQUENCES.length) []
  sequence.getD (scene_index % sequence.length) ""

/-! ### Typewriter overlay (`build_typewriter_filter`, lines 230–315)

The function walks the lines of the text (split on newline), emitting one
`drawtext` primitive per glyph whose `enable` expression is
`gte(t, char_start)` with `char_start = start_time + char_index /
chars_per_second`; `char_index` advances by one per glyph and by one extra
step after each line (the newline, line 313). -/

/-- One emitted glyph primitive: the character, its flattened index
(`char_index` at emission time) and its reveal time (`char_start`). -/
structure Glyph where
  ch : Char
  flatIndex : ℕ
  revealTime : ℚ
deriving DecidableEq, Repr

/-- Inner loop of `build_typewriter_filter` over one line (lines 281–310):
each character of the line is emitted at the running `char_index` with
reveal time `start_time + char_index / chars_per_second`. -/
def typewriterLineGlyphs (start_time chars_per_second : ℚ) :
    ℕ → List Char → List Glyph
  | _, [] => []
  | char_index, c :: cs =>
    ⟨c, char_index, start_time + char_index / chars_per_second⟩ ::
      typewriterLineGlyphs start_time chars_per_second (char_index + 1) cs

/-- Outer loop of `build_typewriter_filter` over the lines (lines 278–313):
after each line the `char_index` has advanced by the line's length, plus one
extra step counting the newline. -/
def typewriterLinesGlyphs (start_time chars_per_second : ℚ) :
    ℕ → List (List Char) → List Glyph
  | _, [] => []
  | char_index, l :: ls =>
    typewriterLineGlyphs start_time chars_per_second char_index l ++
      typewriterLinesGlyphs start_time chars_per_second
        (char_index + l.length + 1) ls

/-- Python's `text.split('\n')` over the characters of the text: splitting
an empty text yields one empty line, and each newline character starts a new
line.  (Line 275's newline-free branch also yields the single-element
list, so the unconditional split is equivalent.) -/
def splitLines : List Char → List (List Char)
  | [] => [[]]
  | c :: cs =>
    let r := splitLines cs
    if c = '\n' then [] :: r
    else (c :: r.headD []) :: r.tail

/-- The glyph primitives emitted by `build_typewriter_filter` for `text`
(modelled as its character list): the text is split on newlines
(`text.split('\n')`, line 275) and walked with `char_index` starting
at 0. -/
def build_typewriter_glyphs (text : List Char)
    (start_time chars_per_second : ℚ) : List Glyph :=
  typewriterLinesGlyphs start_time chars_per_second 0 (splitLines text)

/-- The visibility predicate a glyph carries: `enable='gte(t,char_start)'`
(line 299), i.e. the glyph is drawn at time `t` iff `t ≥ revealTime`. -/
def glyphVisible (g : Glyph) (t : ℚ) : Bool :=
  g.revealTime ≤ t

/-! ### Audio probing (`get_audio_duration`, lines 959–972) -/

/-- Outcome of the `ffprobe` collaborator call made by `get_audio_duration`:
the probe can fail (nonzero exit / missing file), succeed with unusable
output (stdout that is not JSON, or a duration field `float()` rejects), or
succeed with a JSON object whose `format.duration` field is absent (`none`)
or a parseable number (`some d`). -/
inductive ProbeResult where
  | err : ProbeResult
  | unparsable : ProbeResult
  | ok : Option ℚ → ProbeResult
deriving DecidableEq, Repr

/-- Model of `get_audio_duration` (lines 959–972): a successful probe with a parseable
duration field returns that duration; every other outcome (nonzero exit,
JSON/float exception, absent field with its `5.0` default) returns `5.0`. -/
def get_audio_duration : ProbeResult → ℚ
  | ProbeResult.ok (some d) => d
  | _ => 5

/-! ### Scene duration resolution (`assemble_chapter_video_fast`,
lines 1296–1320) -/

/-- The per-scene inputs that drive the chapter-assembly loop: whether the
referenced image exists (line 1307), the probe outcome of the attached audio
when the audio path is set and the file exists (`some`, lines 1312–1315),
the scene's explicit `duration` field (line 1317), and the oracle result of
the `create_scene_clip_ffmpeg` engine invocation for this scene
(lines 1355–1361). -/
structure SceneInput where
  imageExists : Bool
  audio : Option ProbeResult
  explicitDuration : Option ℚ
  renderOk : Bool
deriving DecidableEq, Repr

/-- Lines 1312–1317: with attached audio the raw duration is the probed
duration plus the `0.4` pacing pad; otherwise the scene's explicit duration
or the `8.0` default. -/
def rawClipDuration (s : SceneInput) : ℚ :=
  match s.audio with
  | some probe => get_audio_duration probe + 2/5
  | none => s.explicitDuration.getD 8

/-- Line 1320: `duration = max(duration, 5.0)` — the minimum floor. -/
def resolveClipDuration (s : SceneInput) : ℚ :=
  max (rawClipDuration s) 5

/-! ### Crossfade chain construction (`concatenate_with_crossfade`,
lines 1190–1264)

Clips are represented by their probed durations (`get_video_duration_ffprobe`
per path, line 1202).  The loop (lines 1215–1227) runs `i` from `0` to
`n-2`, computes `offset = cumulative_offset + durations[i] -
transition_duration`, appends one `xfade` video filter (duration
`transition_duration`, that offset, bridging streams `i` and `i+1`) and one
`acrossfade` audio filter (duration `transition_duration`), and sets
`cumulative_offset = offset`. -/

/-- One `xfade`/`acrossfade` filter pair emitted by an iteration of the loop:
the indices of the two bridged clips, the video and audio crossfade
durations (both `transition_duration`), and the video `offset`. -/
structure XfadePair where
  left : ℕ
  right : ℕ
  videoDur : ℚ
  audioDur : ℚ
  offset : ℚ
deriving DecidableEq, Repr

/-- The loop of lines 1215–1227, over the durations of clips `0 .. n-2`
(clip `n-1`'s duration is never read), carrying the loop index and
`cumulative_offset`. -/
def xfadeLoop (transition_duration : ℚ) : ℕ → ℚ → List ℚ → List XfadePair
  | _, _, [] => []
  | i, cumulative_offset, d :: ds =>
    let offset := cumulative_offset + d - transition_duration
    ⟨i, i + 1, transition_duration, transition_duration, offset⟩ ::
      xfadeLoop transition_duration (i + 1) offset ds

/-- The full list of filter pairs built by `concatenate_with_crossfade` for
clip durations `durations`: the loop visits `durations[i]` for
`i ∈ 0 .. n-2`, starting from `cumulative_offset = 0` (line 1213). -/
def buildXfadeParts (durations : List ℚ) (transition_duration : ℚ) :
    List XfadePair :=
  xfadeLoop transition_duration 0 0 durations.dropLast

/-- The video offsets of the built crossfade chain, in emission order. -/
def crossfadeOffsets (durations : List ℚ) (transition_duration : ℚ) : List ℚ :=
  (buildXfadeParts durations transition_duration).map XfadePair.offset

/-! ### Concatenation control flow (`concatenate_videos_ffmpeg`,
`concatenate_with_crossfade`, lines 1130–1264)

The success of each external invocation is supplied by an oracle; each
function also returns the ordered trace of invocations it issued. -/

/-- An external invocation issued by the concatenation paths: the `cp`
identity copy of a single clip to the output path (line 1141/1198), a
compositing-engine run executing a built crossfade filter graph
(lines 1239–1253), or a concat-demuxer engine run for hard cuts
(lines 1153–1161). -/
inductive Invocation where
  | copy : Invocation
  | crossfadeRun : List XfadePair → Invocation
  | concatRun : Invocation
deriving DecidableEq, Repr

/-- Success values the external collaborators report for each kind of
invocation. -/
structure EngineOracle where
  copyOk : Bool
  crossfadeRunOk : Bool
  concatRunOk : Bool
deriving DecidableEq, Repr

/-- The oracle under which every external invocation succeeds. -/
def allOk : EngineOracle := ⟨true, true, true⟩

/-- Model of `concatenate_videos_ffmpeg` with `use_transitions=False` (also the body
reached when transitions are off, lines 1136–1167): empty input returns
`False` with no invocation; a single clip is `cp`-copied (`check=True`, so a
failed copy raises and the enclosing handler returns `False`); otherwise one
concat-demuxer run decides the result. -/
def plainConcat (clips : List ℚ) (o : EngineOracle) : Bool × List Invocation :=
  if clips.isEmpty then (false, [])
  else if clips.length == 1 then (o.copyOk, [Invocation.copy])
  else (o.concatRunOk, [Invocation.concatRun])

/-- Model of `concatenate_with_crossfade(video_paths, output, transition_duration)`
(lines 1190–1264).  Fewer than two clips: an empty list returns `True`
outright and a single clip is copied (a failed copy raises into the handler,
which falls back to `concatenate_videos_ffmpeg(..., use_transitions=False)`).
Otherwise the crossfade filter graph is built unconditionally and the engine
invoked with it; only if that run fails does the code fall back to the plain
hard-cut concatenation (lines 1255–1258). -/
def concatenate_with_crossfade (clips : List ℚ) (transition_duration : ℚ)
    (o : EngineOracle) : Bool × List Invocation :=
  if clips.length < 2 then
    if clips.isEmpty then (true, [])
    else if o.copyOk then (true, [Invocation.copy])
    else
      let fb := plainConcat clips o
      (fb.1, Invocation.copy :: fb.2)
  else
    let parts := buildXfadeParts clips transition_duration
    if o.crossfadeRunOk then (true, [Invocation.crossfadeRun parts])
    else
      let fb := plainConcat clips o
      (fb.1, Invocation.crossfadeRun parts :: fb.2)

/-- Model of `concatenate_videos_ffmpeg(video_paths, output, use_transitions)`
(lines 1130–1171): empty input fails; a single clip is copied; with
transitions requested and at least two clips, defer to
`concatenate_with_crossfade` with the default `transition_duration = 0.75`;
otherwise hard-cut concatenation. -/
def concatenate_videos_ffmpeg (clips : List ℚ) (use_transitions : Bool)
    (o : EngineOracle) : Bool × List Invocation :=
  if clips.isEmpty then (false, [])
  else if clips.length == 1 then (o.copyOk, [Invocation.copy])
  else if use_transitions && decide (2 ≤ clips.length) then
    concatenate_with_crossfade clips (3/4) o
  else plainConcat clips o

/-! ### Chapter assembly (`assemble_chapter_video_fast`, lines 1267–1388) -/

/-- The scene loop of lines 1296–1366: a scene whose image is missing is
skipped (`continue`, line 1309); otherwise it is rendered with its resolved
duration and collected only if the engine invocation succeeds.  Returns the
durations of the successfully rendered scene clips, in scene order. -/
def renderedClipDurations (scenes : List SceneInput) : List ℚ :=
  scenes.filterMap fun s =>
    if s.imageExists && s.renderOk then some (resolveClipDuration s) else none

/-- Model of `assemble_chapter_video_fast(chapter_data, output, use_transitions)`
(lines 1267–1388): an empty scene list fails (line 1285); zero successfully
rendered clips fail (line 1368); otherwise the rendered clips are
concatenated, with transitions only when requested and the clip count lies
in `[2, 20]` (line 1374), and that concatenation's result is returned. -/
def assemble_chapter_video_fast (scenes : List SceneInput)
    (use_transitions : Bool) (o : EngineOracle) : Bool :=
  if scenes.isEmpty then false
  else
    let clips := renderedClipDurations scenes
    if clips.isEmpty then false
    else
      let should := use_transitions && decide (2 ≤ clips.length)
        && decide (clips.length ≤ 20)
      (concatenate_videos_ffmpeg clips should o).1

/-! ### Full project assembly (`assemble_full_video_fast`,
lines 1391–1483) -/

/-- A clip in the final concatenation list of the project: the year title
card, the output of chapter `i`, or the intro/outro reference. -/
inductive FinalClip where
  | titleCard : FinalClip
  | chapterClip : ℕ → FinalClip
  | intro : FinalClip
  | outro : FinalClip
deriving DecidableEq, Repr

/-- Indices of the successful entries of `bs`, offset by `k` — the chapter
loop of lines 1444–1452 collects `chapter_{i+1}.mp4` exactly for the
chapters whose assembly returned success. -/
def successIdx (k : ℕ) : List Bool → List ℕ
  | [] => []
  | b :: bs => (if b then [k] else []) ++ successIdx (k + 1) bs

/-- The project-level inputs: whether a `year_title` is set, whether some
scene image exists for the card background (lines 1422–1428), the oracle
outcome of each chapter's assembly (in order), and whether intro/outro
references exist on disk (lines 1461–1469). -/
structure ProjectInput where
  yearTitleRequested : Bool
  firstImageExists : Bool
  chapterOk : List Bool
  introExists : Bool
  outroExists : Bool
deriving DecidableEq, Repr

/-- Whether the year title card clip is produced (lines 1431–1442): a year
title must be requested, a background image found, and the
`create_title_card` invocation (oracle `titleCardOk`) must succeed. -/
def yearCardMade (p : ProjectInput) (titleCardOk : Bool) : Bool :=
  p.yearTitleRequested && p.firstImageExists && titleCardOk

/-- The `chapter_videos` list (lines 1413–1452): the year title card when
produced, followed by the clips of the successful chapters in order. -/
def chapterVideos (p : ProjectInput) (titleCardOk : Bool) : List FinalClip :=
  (if yearCardMade p titleCardOk then [FinalClip.titleCard] else []) ++
    (successIdx 0 p.chapterOk).map FinalClip.chapterClip

/-- The `all_videos` list (lines 1459–1469): intro (when present) prepended
and outro (when present) appended around `chapter_videos`. -/
def finalClips (p : ProjectInput) (titleCardOk : Bool) : List FinalClip :=
  (if p.introExists then [FinalClip.intro] else []) ++
    chapterVideos p titleCardOk ++
    (if p.outroExists then [FinalClip.outro] else [])

/-- Model of `assemble_full_video_fast(project_data, output, use_transitions)`
(lines 1391–1483): an empty chapter list fails (line 1409); an empty
`chapter_videos` list fails (line 1454); otherwise the result is that of
concatenating `all_videos` (line 1472).  `dur` supplies the probed duration
of each final clip. -/
def assemble_full_video_fast (p : ProjectInput) (titleCardOk : Bool)
    (dur : FinalClip → ℚ) (use_transitions : Bool) (o : EngineOracle) : Bool :=
  if p.chapterOk.isEmpty then false
  else if (chapterVideos p titleCardOk).isEmpty then false
  else
    (concatenate_videos_ffmpeg ((finalClips p titleCardOk).map dur)
      use_transitions o).1

/-! ### Helper lemmas -/

theorem presetBounded_all : ∀ p ∈ KEN_BURNS_PRESETS, presetBounded p.2 := by
  intro p hp
  fin_cases hp <;> norm_num [presetBounded]

theorem lookup_mem {α β : Type} [BEq α] [LawfulBEq α] :
    ∀ (l : List (α × β)) (a : α) (b : β), l.lookup a = some b → (a, b) ∈ l
  | [], _, _, h => by simp [List.lookup] at h
  | (k, v) :: l, a, b, h => by
    simp only [List.lookup] at h
    cases hak : a == k with
    | true =>
      rw [hak] at h
      simp only [Option.some.injEq] at h
      subst h
      rw [eq_of_beq hak]
      exact List.mem_cons_self _ _
    | false =>
      rw [hak] at h
      exact List.mem_cons_of_mem _ (lookup_mem l a b h)

/-! ### Claim theorems -/

/-- C9: every motion preset in the statically registered `KEN_BURNS_PRESETS`
table has start and end zoom factors at least `1.0` and start/end pan
anchors inside `[0,1]`; and every preset any selection path can return —
i.e. any result of the `KEN_BURNS_PRESETS.get(effect, default)` lookup —
satisfies the same bounds. -/
theorem ken_burns_presets_bounded :
    (∀ p ∈ KEN_BURNS_PRESETS, presetBounded p.2) ∧
    (∀ effect : String, presetBounded (lookupPreset effect)) := by
  refine ⟨presetBounded_all, fun effect => ?_⟩
  unfold lookupPreset
  cases h : KEN_BURNS_PRESETS.lookup effect with
  | none =>
    exact presetBounded_all ("zoom_in_center", ⟨1, 6/5, 1/2, 1/2, 1/2, 1/2⟩)
      (List.mem_cons_self _ _)
  | some p =>
    simpa using presetBounded_all (effect, p) (lookup_mem _ _ _ h)

/-- Witness for C9: the bounds hold of the concrete `zoom_in_center` preset
registered in the table. -/
theorem ken_burns_presets_bounded_witness :
    presetBounded ⟨1, 6/5, 1/2, 1/2, 1/2, 1/2⟩ :=
  ken_burns_presets_bounded.1 ("zoom_in_center", ⟨1, 6/5, 1/2, 1/2, 1/2, 1/2⟩)
    (List.mem_cons_self _ _)

/-- C3: for every scene, if audio is attached (and exists) the resolved clip
duration is `max(probed + 0.4, 5.0)`; without audio it is
`max(explicit-or-default, 5.0)` with default `8.0`; and every resolved
duration is at least the `5.0` floor. -/
theorem resolveClipDuration_spec (s : SceneInput) :
    (∀ r, s.audio = some r →
      resolveClipDuration s = max (get_audio_duration r + 2/5) 5) ∧
    (s.audio = none →
      resolveClipDuration s = max (s.explicitDuration.getD 8) 5) ∧
    5 ≤ resolveClipDuration s := by
  refine ⟨?_, ?_, le_max_right _ _⟩
  · intro r hr
    unfold resolveClipDuration rawClipDuration
    rw [hr]
  · intro hr
    unfold resolveClipDuration rawClipDuration
    rw [hr]

/-- Witness for C3: a scene with probed audio duration `3` resolves to
`max(3 + 0.4, 5) = 5`, and one without audio and explicit duration `9`
resolves to `max(9, 5) = 9`. -/
theorem resolveClipDuration_spec_witness :
    resolveClipDuration ⟨true, some (ProbeResult.ok (some 3)), none, true⟩ =
      max ((3 : ℚ) + 2/5) 5 ∧
    resolveClipDuration ⟨true, none, some 9, true⟩ =
      max ((some (9 : ℚ)).getD 8) 5 :=
  ⟨(resolveClipDuration_spec _).1 (ProbeResult.ok (some 3)) rfl,
    (resolveClipDuration_spec _).2.1 rfl⟩

/-- C10: whenever the audio probe fails in any way — prober error, unparsable
output, or absent duration field — `get_audio_duration` returns the default
`5.0`; consequently a scene whose image exists and whose attached audio
cannot be probed resolves to `max(5.0 + 0.4, 5.0) = 5.4` seconds and is
still rendered (it contributes its clip) rather than being skipped. -/
theorem get_audio_duration_default (r : ProbeResult)
    (h : ∀ d : ℚ, r ≠ ProbeResult.ok (some d)) :
    get_audio_duration r = 5 ∧
    ∀ s : SceneInput, s.audio = some r → s.imageExists = true →
      s.renderOk = true →
      resolveClipDuration s = 27/5 ∧ renderedClipDurations [s] = [27/5] := by
  have hd : get_audio_duration r = 5 := by
    cases r with
    | err => rfl
    | unparsable => rfl
    | ok o =>
      cases o with
      | none => rfl
      | some d => exact absurd rfl (h d)
  refine ⟨hd, fun s hs himg hren => ?_⟩
  have hres : resolveClipDuration s = 27/5 := by
    unfold resolveClipDuration rawClipDuration
    rw [hs]
    show max (get_audio_duration r + 2/5) 5 = 27/5
    rw [hd, show (5 : ℚ) + 2/5 = 27/5 by norm_num,
      max_eq_left (by norm_num : (5 : ℚ) ≤ 27/5)]
  refine ⟨hres, ?_⟩
  simp [renderedClipDurations, himg, hren, hres]

/-- Witness for C10: a prober error on a scene with an existing image and
attached audio yields the default probe duration `5` and a rendered clip of
`5.4 = 27/5` seconds. -/
theorem get_audio_duration_default_witness :
    get_audio_duration ProbeResult.err = 5 ∧
    renderedClipDurations [⟨true, some ProbeResult.err, none, true⟩] =
      [27/5] := by
  have h := get_audio_duration_default ProbeResult.err (fun d hd => by
    exact ProbeResult.noConfusion hd)
  exact ⟨h.1, (h.2 ⟨true, some ProbeResult.err, none, true⟩ rfl rfl rfl).2⟩

/-- C8: concatenating an empty clip list fails (returns `False` with no
invocation issued); a single clip short-circuits to the `cp` identity copy —
a byte-identical copy of that clip at the output path — returning success
with no crossfade (or any other) composition invoked, for any
`use_transitions` flag. -/
theorem concatenate_single_identity :
    (∀ (ut : Bool) (o : EngineOracle),
      concatenate_videos_ffmpeg [] ut o = (false, [])) ∧
    (∀ (d : ℚ) (ut : Bool) (o : EngineOracle), o.copyOk = true →
      concatenate_videos_ffmpeg [d] ut o = (true, [Invocation.copy])) := by
  constructor
  · intro ut o; rfl
  · intro d ut o h
    unfold concatenate_videos_ffmpeg
    simp [h]

/-- Witness for C8: with a succeeding copy invocation, the singleton law
holds at the concrete clip of duration `5`. -/
theorem concatenate_single_identity_witness :
    concatenate_videos_ffmpeg [5] true allOk = (true, [Invocation.copy]) :=
  concatenate_single_identity.2 5 true allOk rfl

/-- Every glyph emitted by the inner typewriter loop carries reveal time
`start_time + flatIndex / chars_per_second`. -/
theorem typewriterLineGlyphs_revealTime (start_time chars_per_second : ℚ) :
    ∀ (l : List Char) (idx : ℕ) (g : Glyph),
      g ∈ typewriterLineGlyphs start_time chars_per_second idx l →
      g.revealTime = start_time + g.flatIndex / chars_per_second := by
  intro l
  induction l with
  | nil => intro idx g hg; simp [typewriterLineGlyphs] at hg
  | cons c cs ih =>
    intro idx g hg
    simp only [typewriterLineGlyphs, List.mem_cons] at hg
    rcases hg with hg | hg
    · subst hg; rfl
    · exact ih (idx + 1) g hg

/-- Every glyph emitted by the outer typewriter loop carries reveal time
`start_time + flatIndex / chars_per_second`. -/
theorem typewriterLinesGlyphs_revealTime (start_time chars_per_second : ℚ) :
    ∀ (ls : List (List Char)) (idx : ℕ) (g : Glyph),
      g ∈ typewriterLinesGlyphs start_time chars_per_second idx ls →
      g.revealTime = start_time + g.flatIndex / chars_per_second := by
  intro ls
  induction ls with
  | nil => intro idx g hg; simp [typewriterLinesGlyphs] at hg
  | cons l ls ih =>
    intro idx g hg
    simp only [typewriterLinesGlyphs, List.mem_append] at hg
    rcases hg with hg | hg
    · exact typewriterLineGlyphs_revealTime start_time chars_per_second l idx g hg
    · exact ih (idx + l.length + 1) g hg

/-- C4: automatic motion-preset selection is
`EFFECT_SEQUENCES[i mod sequenceCount][i mod length(that sequence)]`; it is
a pure deterministic function of the scene index (the `total_scenes`
argument is not even consulted, so equal `(i, n)` trivially yield equal
results); and its result is always a registered key of the
`KEN_BURNS_PRESETS` table. -/
theorem get_effect_for_scene_spec (i n m : ℕ) :
    get_effect_for_scene i n =
      (EFFECT_SEQUENCES.getD (i % EFFECT_SEQUENCES.length) []).getD
        (i % (EFFECT_SEQUENCES.getD (i % EFFECT_SEQUENCES.length) []).length)
        "" ∧
    get_effect_for_scene i n = get_effect_for_scene i m ∧
    registeredEffects.contains (get_effect_for_scene i n) = true := by
  refine ⟨rfl, rfl, ?_⟩
  have h6 : i % 6 = 0 ∨ i % 6 = 1 ∨ i % 6 = 2 ∨ i % 6 = 3 ∨ i % 6 = 4 ∨
      i % 6 = 5 := by omega
  show registeredEffects.contains
    ((EFFECT_SEQUENCES.getD (i % 3) []).getD
      (i % (EFFECT_SEQUENCES.getD (i % 3) []).length) "") = true
  rcases (by omega : i % 3 = 0 ∨ i % 3 = 1 ∨ i % 3 = 2) with h | h | h <;>
    rw [h] <;>
    simp only [EFFECT_SEQUENCES, List.getD_cons_zero, List.getD_cons_succ,
      List.length_cons, List.length_nil] <;>
    rcases h6 with h' | h' | h' | h' | h' | h' <;>
    first
      | omega
      | (rw [h']; decide)

theorem xfadeLoop_length (g : ℚ) :
    ∀ (ds : List ℚ) (i : ℕ) (c : ℚ), (xfadeLoop g i c ds).length = ds.length
  | [], _, _ => rfl
  | _ :: ds, i, c => by
    simp only [xfadeLoop, List.length_cons]
    rw [xfadeLoop_length g ds (i + 1)]

/-- Closed form of the crossfade loop: the `j`-th emitted pair bridges clips
`i+j` and `i+j+1` and its offset is the running offset from `c` —
the sum of the first `j+1` visited durations minus `j+1` transitions. -/
theorem xfadeLoop_getD (g : ℚ) :
    ∀ (ds : List ℚ) (i : ℕ) (c : ℚ) (j : ℕ), j < ds.length →
      (xfadeLoop g i c ds).getD j ⟨0, 0, 0, 0, 0⟩ =
        ⟨i + j, i + j + 1, g, g,
          c + (ds.take (j + 1)).sum - ((j : ℚ) + 1) * g⟩ := by
  intro ds
  induction ds with
  | nil => intro i c j hj; simp at hj
  | cons d ds ih =>
    intro i c j hj
    cases j with
    | zero =>
      simp only [xfadeLoop, List.getD_cons_zero]
      rw [XfadePair.mk.injEq]
      refine ⟨by omega, by omega, rfl, rfl, ?_⟩
      simp only [List.take_succ_cons, List.take_zero, List.sum_cons,
        List.sum_nil]
      push_cast
      ring
    | succ j =>
      simp only [xfadeLoop, List.getD_cons_succ]
      rw [ih (i + 1) (c + d - g) j (by simpa using Nat.lt_of_succ_lt_succ hj)]
      rw [XfadePair.mk.injEq]
      refine ⟨by omega, by omega, rfl, rfl, ?_⟩
      simp only [List.take_succ_cons, List.sum_cons]
      push_cast
      ring

theorem buildXfadeParts_length (ds : List ℚ) (g : ℚ) :
    (buildXfadeParts ds g).length = ds.length - 1 := by
  unfold buildXfadeParts
  rw [xfadeLoop_length, List.length_dropLast]

/-- Closed form of the built crossfade chain: the `j`-th pair bridges clips
`j` and `j+1` with offset `d_0 + ... + d_j - (j+1)·g`. -/
theorem buildXfadeParts_getD (ds : List ℚ) (g : ℚ) (j : ℕ)
    (h : j < ds.length - 1) :
    (buildXfadeParts ds g).getD j ⟨0, 0, 0, 0, 0⟩ =
      ⟨j, j + 1, g, g, (ds.take (j + 1)).sum - ((j : ℚ) + 1) * g⟩ := by
  unfold buildXfadeParts
  have hlen : j < ds.dropLast.length := by
    rw [List.length_dropLast]; exact h
  rw [xfadeLoop_getD g ds.dropLast 0 0 j hlen]
  have htake : ds.dropLast.take (j + 1) = ds.take (j + 1) := by
    rw [List.dropLast_eq_take, List.take_take, Nat.min_eq_left (by omega)]
  rw [htake, XfadePair.mk.injEq]
  exact ⟨by omega, by omega, rfl, rfl, by rw [zero_add]⟩

theorem crossfadeOffsets_getD (ds : List ℚ) (g : ℚ) (j : ℕ)
    (h : j < ds.length - 1) :
    (crossfadeOffsets ds g).getD j 0 =
      (ds.take (j + 1)).sum - ((j : ℚ) + 1) * g := by
  unfold crossfadeOffsets
  have hlen : j < (buildXfadeParts ds g).length := by
    rw [buildXfadeParts_length]; exact h
  rw [List.getD_eq_getElem _ _ (by simpa using hlen), List.getElem_map]
  have hj := buildXfadeParts_getD ds g j h
  rw [List.getD_eq_getElem _ _ hlen] at hj
  rw [hj]

/-- C1: for `k ≥ 2` clips with durations `ds` and transition duration `g`,
the crossfade chain built by `concatenate_with_crossfade` emits exactly
`k-1` xfade/acrossfade pairs; the `j`-th pair bridges clips `j` and `j+1`
(clip order) with video and audio crossfade durations `g` and the `j`-th
video offset; and the offsets satisfy `offset_0 = d_0 - g` and
`offset_{j+1} = offset_j + d_{j+1} - g`. -/
theorem crossfade_chain_spec (ds : List ℚ) (g : ℚ) (hk : 2 ≤ ds.length) :
    (buildXfadeParts ds g).length = ds.length - 1 ∧
    (∀ j, j < ds.length - 1 →
      (buildXfadeParts ds g).getD j ⟨0, 0, 0, 0, 0⟩ =
        ⟨j, j + 1, g, g, (crossfadeOffsets ds g).getD j 0⟩) ∧
    (crossfadeOffsets ds g).getD 0 0 = ds.getD 0 0 - g ∧
    (∀ j, j + 1 < ds.length - 1 →
      (crossfadeOffsets ds g).getD (j + 1) 0 =
        (crossfadeOffsets ds g).getD j 0 + ds.getD (j + 1) 0 - g) := by
  refine ⟨buildXfadeParts_length ds g, ?_, ?_, ?_⟩
  · intro j hj
    rw [buildXfadeParts_getD ds g j hj, crossfadeOffsets_getD ds g j hj]
  · rw [crossfadeOffsets_getD ds g 0 (by omega)]
    cases ds with
    | nil => simp at hk
    | cons d tl =>
      simp only [List.take_succ_cons, List.take_zero, List.sum_cons,
        List.sum_nil, List.getD_cons_zero]
      push_cast
      ring
  · intro j hj
    rw [crossfadeOffsets_getD ds g (j + 1) hj,
      crossfadeOffsets_getD ds g j (by omega)]
    have hlt : j + 1 < ds.length := by omega
    rw [List.sum_take_succ ds (j + 1) hlt, List.getD_eq_getElem _ _ hlt]
    push_cast
    ring

/-- C2 counterexample: for the clip list `[0.5, 0.5]` with transition
duration `g = 0.75` — an adjacent pair with `g ≥ min(d_0, d_1)` —
crossfade-chain construction does NOT fail before the compositing engine is
invoked: the filter graph, carrying the negative offset `-0.25`, is emitted
and the engine is invoked with it (and with a succeeding engine no fallback
happens at all). -/
theorem crossfade_failfast_counterexample :
    (3/4 : ℚ) ≥ min ((1 : ℚ)/2) ((1 : ℚ)/2) ∧
    concatenate_with_crossfade [1/2, 1/2] (3/4) allOk =
      (true, [Invocation.crossfadeRun [⟨0, 1, 3/4, 3/4, -(1/4)⟩]]) ∧
    ((-(1/4) : ℚ) < 0) := by
  refine ⟨by norm_num, ?_, by norm_num⟩
  norm_num [concatenate_with_crossfade, buildXfadeParts, xfadeLoop, allOk]

/-- C2 amended: `concatenate_with_crossfade` performs no validation of the
transition duration against the clip durations.  For any list of at least
two clips, the very first external invocation is the engine run executing
the built crossfade filter graph, whatever its offsets; only when that run
fails does the code fall back to hard-cut concatenation (the concat-demuxer
run), whose result it returns. -/
theorem crossfade_fallback_after_invocation (ds : List ℚ) (g : ℚ)
    (o : EngineOracle) (h : 2 ≤ ds.length) :
    (concatenate_with_crossfade ds g o).2.head? =
      some (Invocation.crossfadeRun (buildXfadeParts ds g)) ∧
    (o.crossfadeRunOk = false →
      concatenate_with_crossfade ds g o =
        (o.concatRunOk,
          [Invocation.crossfadeRun (buildXfadeParts ds g),
            Invocation.concatRun])) := by
  have h2 : ¬ ds.length < 2 := by omega
  have hne : ds.isEmpty = false := by
    cases ds with
    | nil => simp at h
    | cons d tl => rfl
  have h1 : (ds.length == 1) = false := by
    simp only [beq_eq_false_iff_ne, ne_eq]
    omega
  unfold concatenate_with_crossfade plainConcat
  rw [if_neg h2]
  constructor
  · cases hc : o.crossfadeRunOk <;> simp [hc, hne, h1]
  · intro hc
    simp [hc, hne, h1]

/-- Witness for C2 amended: two one-second clips with `g = 0.5` under an
oracle whose crossfade run fails — the crossfade graph is emitted first and
the hard-cut fallback result is returned afterwards. -/
theorem crossfade_fallback_after_invocation_witness :
    (concatenate_with_crossfade [1, 1] (1/2) ⟨true, false, true⟩).2.head? =
      some (Invocation.crossfadeRun (buildXfadeParts [1, 1] (1/2))) ∧
    concatenate_with_crossfade [1, 1] (1/2) ⟨true, false, true⟩ =
      (true,
        [Invocation.crossfadeRun (buildXfadeParts [1, 1] (1/2)),
          Invocation.concatRun]) := by
  have h := crossfade_fallback_after_invocation [1, 1] (1/2)
    ⟨true, false, true⟩ (by norm_num)
  exact ⟨h.1, h.2 rfl⟩

/-- Witness for C1: for three clips of `8` seconds each and the default
transition `g = 0.75`, the chain has `2` pairs and its first offset is
`8 - 0.75 = 7.25`. -/
theorem crossfade_chain_spec_witness :
    (buildXfadeParts [8, 8, 8] (3/4)).length = 3 - 1 ∧
    (crossfadeOffsets [8, 8, 8] (3/4)).getD 0 0 = 29/4 := by
  have h := crossfade_chain_spec [8, 8, 8] (3/4) (by norm_num)
  refine ⟨h.1, ?_⟩
  rw [h.2.2.1]
  norm_num

/-- Under the all-successful oracle, concatenating any nonempty clip list
succeeds, whichever branch (copy, crossfade, or hard cut) is taken. -/
theorem concatenate_videos_ffmpeg_allOk (clips : List ℚ) (ut : Bool)
    (h : clips ≠ []) :
    (concatenate_videos_ffmpeg clips ut allOk).1 = true := by
  have hne : clips.isEmpty = false := by
    cases clips with
    | nil => exact absurd rfl h
    | cons c cs => rfl
  have hpos : 0 < clips.length := List.length_pos.mpr h
  unfold concatenate_videos_ffmpeg
  by_cases h1 : (clips.length == 1) = true
  · simp [hne, h1, allOk]
  · have h2 : 2 ≤ clips.length := by
      simp only [beq_iff_eq] at h1
      omega
    by_cases hu : ut
    · simp [hne, h1, hu, h2, allOk, concatenate_with_crossfade,
        Nat.not_lt.mpr h2]
    · simp [hne, h1, hu, allOk, plainConcat]

/-- The collected scene clips are exactly the resolved durations of the
scenes that pass the image check and whose render succeeds, in order. -/
theorem renderedClipDurations_eq (scenes : List SceneInput) :
    renderedClipDurations scenes =
      (scenes.filter fun s => s.imageExists && s.renderOk).map
        resolveClipDuration := by
  induction scenes with
  | nil => rfl
  | cons s ss ih =>
    simp only [renderedClipDurations] at ih ⊢
    simp at ih
    cases hs : s.imageExists && s.renderOk
    · have hns : ¬(s.imageExists = true ∧ s.renderOk = true) := by
        intro hc
        rw [hc.1, hc.2] at hs
        simp at hs
      simp [hs, hns, ih]
    · have hps := hs
      simp only [Bool.and_eq_true] at hps
      simp [hs, hps.1, hps.2, ih]

/-- C7 counterexample: a chapter with one scene that renders successfully
(its image exists, the render succeeds — one collected clip) still returns
`False` when the concluding copy/concatenation invocation fails, refuting
"returns `False` if and only if zero scenes render successfully". -/
theorem chapter_fail_counterexample :
    (renderedClipDurations [⟨true, none, none, true⟩]).length = 1 ∧
    assemble_chapter_video_fast [⟨true, none, none, true⟩] true
      ⟨false, true, true⟩ = false :=
  ⟨rfl, rfl⟩

/-- C7 amended: chapter assembly skips exactly the scenes whose image is
missing or whose render fails (the collected clips are those of the scenes
passing both checks, in order); when every engine invocation succeeds it
returns `False` if and only if zero scenes render successfully; and for any
oracle, success implies at least one scene rendered (zero rendered scenes
always fail — only the converse can be broken, by a failing final
concatenation). -/
theorem assemble_chapter_spec (scenes : List SceneInput) (ut : Bool) :
    renderedClipDurations scenes =
      (scenes.filter fun s => s.imageExists && s.renderOk).map
        resolveClipDuration ∧
    (assemble_chapter_video_fast scenes ut allOk = false ↔
      renderedClipDurations scenes = []) ∧
    (∀ o : EngineOracle, assemble_chapter_video_fast scenes ut o = true →
      renderedClipDurations scenes ≠ []) := by
  refine ⟨renderedClipDurations_eq scenes, ?_, ?_⟩
  · unfold assemble_chapter_video_fast
    by_cases hs : scenes.isEmpty
    · have hnil : scenes = [] := by
        cases scenes with
        | nil => rfl
        | cons a l => simp at hs
      subst hnil
      simp [renderedClipDurations]
    · simp only [hs, Bool.false_eq_true, if_false]
      by_cases hc : (renderedClipDurations scenes).isEmpty
      · have hnil : renderedClipDurations scenes = [] := by
          cases h : renderedClipDurations scenes with
          | nil => rfl
          | cons a l => rw [h] at hc; simp at hc
        simp [hnil]
      · have hnil : renderedClipDurations scenes ≠ [] := by
          intro h; rw [h] at hc; simp at hc
        have hok := concatenate_videos_ffmpeg_allOk
          (renderedClipDurations scenes)
          (ut && decide (2 ≤ (renderedClipDurations scenes).length)
            && decide ((renderedClipDurations scenes).length ≤ 20)) hnil
        simp [hc, hok, hnil]
  · intro o hres hnil
    unfold assemble_chapter_video_fast at hres
    rw [hnil] at hres
    simp at hres

/-- Witness for C7 amended: a one-scene chapter whose scene renders — under
a succeeding oracle assembly returns success, so the rendered list is
nonempty. -/
theorem assemble_chapter_spec_witness :
    renderedClipDurations [⟨true, none, none, true⟩] ≠ [] :=
  (assemble_chapter_spec [⟨true, none, none, true⟩] true).2.2 allOk rfl

theorem successIdx_le (bs : List Bool) :
    ∀ k i, i ∈ successIdx k bs → k ≤ i := by
  induction bs with
  | nil => intro k i h; simp [successIdx] at h
  | cons b bs ih =>
    intro k i h
    simp only [successIdx, List.mem_append] at h
    rcases h with h | h
    · cases b with
      | true => simp at h; omega
      | false => simp at h
    · have := ih (k + 1) i h
      omega

theorem mem_successIdx (bs : List Bool) :
    ∀ k j, (k + j) ∈ successIdx k bs ↔ bs.getD j false = true := by
  induction bs with
  | nil => intro k j; simp [successIdx]
  | cons b bs ih =>
    intro k j
    simp only [successIdx, List.mem_append]
    cases j with
    | zero =>
      simp only [List.getD_cons_zero, Nat.add_zero]
      constructor
      · rintro (h | h)
        · cases b with
          | true => rfl
          | false => simp at h
        · have := successIdx_le bs (k + 1) k h
          omega
      · intro hb
        subst hb
        simp
    | succ j =>
      simp only [List.getD_cons_succ]
      rw [show k + (j + 1) = (k + 1) + j by omega, ih (k + 1) j]
      constructor
      · rintro (h | h)
        · cases b with
          | true => simp at h; omega
          | false => simp at h
        · exact h
      · intro h
        exact Or.inr h

theorem successIdx_eq_nil (bs : List Bool) :
    ∀ k, successIdx k bs = [] ↔ ∀ b ∈ bs, b = false := by
  induction bs with
  | nil => intro k; simp [successIdx]
  | cons b bs ih =>
    intro k
    simp only [successIdx, List.append_eq_nil, List.mem_cons]
    cases b with
    | true => simp
    | false => simp [ih (k + 1)]

/-- C6 counterexample: a project whose single chapter fails, but whose
requested year title card is created, returns success (the title card alone
is concatenated) even though zero chapters assembled successfully — refuting
"returns `False` if and only if zero chapters assemble successfully". -/
theorem project_fail_counterexample :
    assemble_full_video_fast ⟨true, true, [false], false, false⟩ true
      (fun _ => 1) true allOk = true ∧
    successIdx 0 [false] = [] :=
  ⟨rfl, rfl⟩

/-- C6 amended: under a succeeding engine oracle, full-project assembly
returns `False` iff the chapter list is empty or the collected
`chapter_videos` list is empty; that list is empty iff no year title card
was produced and zero chapters succeeded; and the final clip list contains
chapter `i`'s clip iff chapter `i` assembled successfully (failed chapters
are omitted). -/
theorem assemble_full_spec (p : ProjectInput) (tOk : Bool)
    (dur : FinalClip → ℚ) (ut : Bool) :
    (assemble_full_video_fast p tOk dur ut allOk = false ↔
      (p.chapterOk = [] ∨ chapterVideos p tOk = [])) ∧
    (chapterVideos p tOk = [] ↔
      (yearCardMade p tOk = false ∧ ∀ b ∈ p.chapterOk, b = false)) ∧
    (∀ i, FinalClip.chapterClip i ∈ finalClips p tOk ↔
      p.chapterOk.getD i false = true) := by
  refine ⟨?_, ?_, ?_⟩
  · unfold assemble_full_video_fast
    by_cases hc : p.chapterOk.isEmpty
    · have hnil : p.chapterOk = [] := by
        cases h : p.chapterOk with
        | nil => rfl
        | cons a l => rw [h] at hc; simp at hc
      simp [hc, hnil]
    · have hnil : p.chapterOk ≠ [] := by
        intro h; rw [h] at hc; simp at hc
      simp only [hc, Bool.false_eq_true, if_false]
      by_cases hv : (chapterVideos p tOk).isEmpty
      · have hvnil : chapterVideos p tOk = [] := by
          cases h : chapterVideos p tOk with
          | nil => rfl
          | cons a l => rw [h] at hv; simp at hv
        simp [hv, hvnil, hnil]
      · have hvnil : chapterVideos p tOk ≠ [] := by
          intro h; rw [h] at hv; simp at hv
        have hfc : (finalClips p tOk).map dur ≠ [] := by
          simp only [finalClips, ne_eq, List.map_eq_nil_iff,
            List.append_eq_nil]
          intro hfc
          exact hvnil hfc.1.2
        have hok := concatenate_videos_ffmpeg_allOk
          ((finalClips p tOk).map dur) ut hfc
        simp [hv, hok, hvnil, hnil]
  · simp only [chapterVideos, List.append_eq_nil, List.map_eq_nil_iff]
    rw [successIdx_eq_nil p.chapterOk 0]
    constructor
    · intro h
      refine ⟨?_, h.2⟩
      by_cases hy : yearCardMade p tOk
      · rw [if_pos hy] at h
        exact absurd h.1 (by simp)
      · simpa using hy
    · intro h
      rw [h.1]
      exact ⟨by simp, h.2⟩
  · intro i
    simp only [finalClips, chapterVideos, List.mem_append, List.mem_map]
    constructor
    · rintro ((h | (h | ⟨a, ha, hai⟩)) | h)
      · by_cases hi : p.introExists <;> simp [hi] at h
      · by_cases hy : yearCardMade p tOk <;> simp [hy] at h
      · rw [FinalClip.chapterClip.injEq] at hai
        subst hai
        have := (mem_successIdx p.chapterOk 0 a).mp (by simpa using ha)
        simpa using this
      · by_cases ho : p.outroExists <;> simp [ho] at h
    · intro h
      refine Or.inl (Or.inr (Or.inr ⟨i, ?_, rfl⟩))
      have := (mem_successIdx p.chapterOk 0 i).mpr h
      simpa using this

/-- Witness for C6 amended: a two-chapter project where only chapter 0
succeeds, no year title requested — chapter 0's clip is in the final list
and chapter 1's is not, and assembly does not fail. -/
theorem assemble_full_spec_witness :
    (FinalClip.chapterClip 0 ∈
      finalClips ⟨false, false, [true, false], false, false⟩ false) ∧
    (FinalClip.chapterClip 1 ∉
      finalClips ⟨false, false, [true, false], false, false⟩ false) ∧
    assemble_full_video_fast ⟨false, false, [true, false], false, false⟩
      false (fun _ => 1) true allOk = true := by
  have h := assemble_full_spec ⟨false, false, [true, false], false, false⟩
    false (fun _ => 1) true
  refine ⟨(h.2.2 0).mpr rfl, fun hm => ?_, ?_⟩
  · have := (h.2.2 1).mp hm
    simp at this
  · have h0 : FinalClip.chapterClip 0 ∈
        finalClips ⟨false, false, [true, false], false, false⟩ false :=
      (h.2.2 0).mpr rfl
    have hne : chapterVideos
        (⟨false, false, [true, false], false, false⟩ : ProjectInput)
        false ≠ [] := by
      intro hnil
      have := (h.2.1.mp hnil).2 true (by simp)
      simp at this
    rcases hres : assemble_full_video_fast
        ⟨false, false, [true, false], false, false⟩ false (fun _ => 1) true
        allOk with _ | _
    · have := h.1.mp hres
      rcases this with hl | hr
      · simp at hl
      · exact absurd hr hne
    · rfl

/-- C5: every glyph emitted by the typewriter filter for a text carries the
visibility predicate `gte(t, start + flatIndex / charsPerSecond)` — its
reveal time is exactly `start + flatIndex / charsPerSecond` and once visible
it stays visible (monotone reveal); and concretely, text `"AB"` with
`charsPerSecond = 2` and `start = 1.0` yields glyph `'A'` enabled from
`t ≥ 1.0` and glyph `'B'` from `t ≥ 1.5`. -/
theorem typewriter_reveal_spec :
    (∀ (text : List Char) (start cps : ℚ) (g : Glyph),
      g ∈ build_typewriter_glyphs text start cps →
      g.revealTime = start + g.flatIndex / cps ∧
      ∀ t t' : ℚ, glyphVisible g t = true → t ≤ t' →
        glyphVisible g t' = true) ∧
    build_typewriter_glyphs ['A', 'B'] 1 2 = [⟨'A', 0, 1⟩, ⟨'B', 1, 3/2⟩] := by
  constructor
  · intro text start cps g hg
    refine ⟨typewriterLinesGlyphs_revealTime start cps _ 0 g hg, ?_⟩
    intro t t' ht htt'
    simp only [glyphVisible, decide_eq_true_eq] at ht ⊢
    exact le_trans ht htt'
  · norm_num [build_typewriter_glyphs, splitLines, typewriterLinesGlyphs,
      typewriterLineGlyphs]

/-- Witness for C5: the reveal-time law applied to the concrete glyph `'B'`
of the text `"AB"` at `charsPerSecond = 2`, `start = 1.0` — its reveal time
is `1 + 1/2 = 1.5`. -/
theorem typewriter_reveal_spec_witness :
    (⟨'B', 1, 3/2⟩ : Glyph).revealTime = 1 + (1 : ℕ) / (2 : ℚ) ∧
    glyphVisible ⟨'B', 1, 3/2⟩ 2 = true := by
  have h := typewriter_reveal_spec.1 ['A', 'B'] 1 2 ⟨'B', 1, 3/2⟩
    (by rw [typewriter_reveal_spec.2]; simp)
  exact ⟨h.1, h.2 (3/2) 2 (by norm_num [glyphVisible]) (by norm_num)⟩

end VideoProcessor
